import Mathlib

/-!
Verification development for the triangular-symmetry spectral fitting code
(`tri_symmetry.py`).  The Python source is shallow-embedded below: the
module-level constant tables and pure helper functions are translated
directly, stateful construction is modelled as explicit `Except`-valued
computation (a Python exception becomes `Except.error`), and the external
QP solver is modelled by its mathematical contract (exact minimizer of the
objective the code passes to it).
-/

/-- Errors raised by the modelled Python code: `TypeError` for a call with
the wrong number of arguments, `AssertionError` for a failed `assert`. -/
inductive PyErr where
  | typeError : PyErr
  | assertionError : PyErr
deriving DecidableEq

/-- A 2-D integer frequency pair `(fa, fb)` in skew coordinates. -/
abbrev Freq2 := ℤ × ℤ

/-- A 3-D integer frequency triplet `(fx, fy, fz)`. -/
abbrev Freq3 := ℤ × ℤ × ℤ

/-- A 2x2 integer matrix, stored row-major as a pair of rows. -/
abbrev Mat2 := (ℤ × ℤ) × (ℤ × ℤ)

/-- Source `kSymmetries` (tri_symmetry.py lines 31-53): the six point
symmetries of space group 156 as 2x2 integer matrices in skew
coordinates, in source order (identity, 120 and 240 degree rotations,
and three reflections). -/
def kSymmetries : List Mat2 :=
  [ ((1, 0), (0, 1)),
    ((0, -1), (1, -1)),
    ((-1, 1), (-1, 0)),
    ((0, -1), (-1, 0)),
    ((-1, 1), (0, 1)),
    ((1, 0), (1, -1)) ]

/-- Matrix transpose of a 2x2 integer matrix. -/
def transposeMat2 (m : Mat2) : Mat2 :=
  ((m.1.1, m.2.1), (m.1.2, m.2.2))

/-- Matrix-vector product of a 2x2 integer matrix with an integer pair. -/
def matVec (m : Mat2) (v : Freq2) : Freq2 :=
  (m.1.1 * v.1 + m.1.2 * v.2, m.2.1 * v.1 + m.2.2 * v.2)

/-- Source line 257: `m.transpose() @ np.array(key)` — the action of a
symmetry element on a frequency, by the transpose of its spatial matrix. -/
def symImage (m : Mat2) (v : Freq2) : Freq2 :=
  matVec (transposeMat2 m) v

/-- Source `kIntegerLatticePlanes` (lines 70-73): outward normals of the two
planes through the origin meant to bound the fundamental domain. -/
def kIntegerLatticePlanes : List (ℤ × ℤ) :=
  [(0, -1), (-1, 1)]

/-- Source `_IsInsideIntegerLatticePlanes(fa, fb)` (lines 85-99): `True` iff
`fa * na + fb * nb <= 0` for every plane normal `(na, nb)`.  Note the
function takes exactly two arguments. -/
def isInsideIntegerLatticePlanes (fa fb : ℤ) : Bool :=
  kIntegerLatticePlanes.all (fun p => decide (fa * p.1 + fb * p.2 ≤ 0))

/-- Fundamental-domain test on a frequency pair, packaging
`isInsideIntegerLatticePlanes` for use on `Freq2` values. -/
def inFD (p : Freq2) : Bool :=
  isInsideIntegerLatticePlanes p.1 p.2

/-- Source lines 256-261: the multiset of images of a representative under
all six symmetry elements (the orbit, with repeats kept; the source tallies
repeats into a dict, modelled here by `List.count` on this list). -/
def orbitList (r : Freq2) : List Freq2 :=
  kSymmetries.map (fun m => symImage m r)

/-- Multiplicity of an image `q` in the orbit of representative `r`
(the source's `num_appearances` dict value). -/
def orbitCount (r q : Freq2) : ℕ :=
  @List.count Freq2 instBEqOfDecidableEq q (orbitList r)

/-- Source lines 267-274: `normalizing_coeff += num_appearances ** 2`
summed over the distinct images of the orbit. -/
def sumSqMult (r : Freq2) : ℕ :=
  ((orbitList r).dedup.map (fun q => orbitCount r q ^ 2)).sum

/-- Source line 274: `1.0 / np.sqrt(normalizing_coeff)`. -/
noncomputable def normalizingCoeff (r : Freq2) : ℝ :=
  1 / Real.sqrt (sumSqMult r)

/-- Source line 245: `self.max_f = self.n // 2 if self.n % 2 == 1 else
self.n // 2 - 1`. -/
def maxF (n : ℕ) : ℤ :=
  if n % 2 = 1 then ((n / 2 : ℕ) : ℤ) else ((n / 2 : ℕ) : ℤ) - 1

/-- The per-axis loop values `range(-max_f, max_f + 1)` of source
lines 249-251. -/
def freqRange (n : ℕ) : List ℤ :=
  (List.range (2 * (maxF n).toNat + 1)).map (fun i : ℕ => -maxF n + (i : ℤ))

/-- The triple loop of source lines 249-251: all `(fx, fy, fz)` with each
component ranging over `range(-max_f, max_f + 1)`, in loop order. -/
def searchTriplets (n : ℕ) : List Freq3 :=
  freqRange n ×ˢ (freqRange n ×ˢ freqRange n)

/-- An enumeration of the frequency pairs whose components lie in
`[-F, F]`, used to state bounded-lattice coverage facts about the 2-D
fundamental domain. -/
def boxRange (F : ℕ) : List ℤ :=
  (List.range (2 * F + 1)).map (fun i : ℕ => -(F : ℤ) + (i : ℤ))

/-- All frequency pairs with both components in `[-F, F]`. -/
def boxPairs (F : ℕ) : List Freq2 :=
  boxRange F ×ˢ boxRange F

/-- Call semantics for `_IsInsideIntegerLatticePlanes`: the function has
exactly two parameters, so a call with any other number of arguments
raises `TypeError` (this is the call made at source line 252 with three
arguments). -/
def pyFilterCall (args : List ℤ) : Except PyErr Bool :=
  match args with
  | [fa, fb] => Except.ok (isInsideIntegerLatticePlanes fa fb)
  | _ => Except.error PyErr.typeError

/-- Source lines 249-255, the body of `_ComputeCoeffs`' frequency loop: for
each triplet, call `_IsInsideIntegerLatticePlanes(fx, fy, fz)` (three
arguments), skip the triplet if the filter rejects it, `assert key not in
self.freqs` (modelled as `AssertionError` on a duplicate key), else record
the key.  The orbit tally of lines 256-261 follows the recording and is
unreachable past the erroring call, so it is not modelled here. -/
def computeCoeffsLoop : List Freq3 → List Freq3 → Except PyErr (List Freq3)
  | [], acc => Except.ok acc
  | t :: rest, acc =>
    match pyFilterCall [t.1, t.2.1, t.2.2] with
    | Except.error e => Except.error e
    | Except.ok inside =>
      if inside = false then computeCoeffsLoop rest acc
      else if t ∈ acc then Except.error PyErr.assertionError
      else computeCoeffsLoop rest (acc ++ [t])

/-- Source `_ComputeCoeffs` (lines 233-278) up to its frequency loop.  The
spectral transform of lines 239-243 cannot fail and its result is unused
before the loop, so only the loop is modelled. -/
def computeCoeffs (n : ℕ) : Except PyErr (List Freq3) :=
  computeCoeffsLoop (searchTriplets n) []

/-- Source `TriSymmetry.__init__` (lines 102-130): after the shape
assertions (`data` square of side `n`, `n > 2`; the square-shape check is
implicit in passing a single side length) it calls `_ComputeCoeffs`. -/
def triSymmetryInit (n : ℕ) : Except PyErr (List Freq3) :=
  if n ≤ 2 then Except.error PyErr.assertionError else computeCoeffs n

/-- The frequency loop of lines 249-255 with the fundamental-domain filter
abstracted as a boolean predicate `φ` on triplets, isolating the
duplicate-key check: accepted keys are recorded and a repeated key raises
`AssertionError`. -/
def repLoop (φ : Freq3 → Bool) : List Freq3 → List Freq3 → Except PyErr (List Freq3)
  | [], acc => Except.ok acc
  | t :: rest, acc =>
    if φ t = false then repLoop φ rest acc
    else if t ∈ acc then Except.error PyErr.assertionError
    else repLoop φ rest (acc ++ [t])

/-- Representative enumeration over the full triple loop with an abstract
fundamental-domain filter `φ`. -/
def enumerateReps (n : ℕ) (φ : Freq3 → Bool) : Except PyErr (List Freq3) :=
  repLoop φ (searchTriplets n) []

/-- Source index wrap (lines 296-297, 303-305): `fx if fx >= 0 else
fx + self.n`. -/
def wrapIdx (n : ℕ) (v : ℤ) : ℤ :=
  if 0 ≤ v then v else v + (n : ℤ)

/-- Source `_GetCoeff` (lines 280-306).  The stored spectral transforms are
abstracted as index functions `rfft` (the half-spectrum `self.rfftn`, read
exactly as the source indexes it) and `cfft` (`self.fftn`).  In the real
branch, a negative `fz` triggers the conjugate lookup: all three components
are negated, the first two are wrapped by `wrapIdx`, and the fetched value
is conjugated. -/
def getCoeff (isReal : Bool) (n : ℕ) (rfft cfft : ℤ → ℤ → ℤ → ℂ)
    (fx fy fz : ℤ) : ℂ :=
  if isReal then
    if fz < 0 then
      starRingEnd ℂ (rfft (wrapIdx n (-fx)) (wrapIdx n (-fy)) (-fz))
    else
      rfft (wrapIdx n fx) (wrapIdx n fy) fz
  else
    cfft (wrapIdx n fx) (wrapIdx n fy) (wrapIdx n fz)

/-- Source lines 181-183 of `EvaluateUnitCube`: `res_actual = res`, except
when `res < self.n` where `res_actual = int(np.ceil(self.n / res)) * res`
(ceiling division written as `(n + res - 1) / res`). -/
def resActual (n res : ℕ) : ℕ :=
  if res < n then ((n + res - 1) / res) * res else res

/-- Source line 228: `skip = res_actual // res`. -/
def strideSkip (n res : ℕ) : ℕ :=
  resActual n res / res

/-- Length of the Python strided slice `result[::skip]` of an array of
length `len`, namely `ceil(len / skip)`. -/
def stridedLength (len skip : ℕ) : ℕ :=
  (len + skip - 1) / skip

/-- Source `_OptimizeCoeffs` lines 388-394: `key_to_index` enumerates every
key of `self.freqs` except the constant key `(0, 0, 0)`, in iteration
order; a key's index is its position in this list. -/
def keyToIndexList (keys : List Freq3) : List Freq3 :=
  keys.filter (fun k => decide (k ≠ ((0, 0, 0) : Freq3)))

/-- Source lines 399-401: the linear-term vector `q`, with `q[index] =
self.basis_coeffs[key]` for each optimization variable. -/
def qVec (keys : List Freq3) (old : Freq3 → ℂ) : ℕ → ℂ :=
  fun i =>
    match (keyToIndexList keys).get? i with
    | some k => old k
    | none => 0

/-- Source lines 422-424: `self.basis_coeffs[key] = sol[index]` for every
key in `key_to_index`; keys outside `key_to_index` keep their old
coefficient. -/
def updateCoeffs (keys : List Freq3) (old : Freq3 → ℂ) (sol : ℕ → ℂ) :
    Freq3 → ℂ :=
  fun k =>
    if k ∈ keyToIndexList keys then sol (List.indexOf k (keyToIndexList keys))
    else old k

/-- Source line 414: the objective `cp.quad_form(x, p) - 2 * cp.real(q.T @ x)`
with `p` the identity, i.e. the sum of the squared moduli of the variables
minus twice the real part of the unconjugated pairing with `q`. -/
noncomputable def qpObjective (nk : ℕ) (q x : ℕ → ℂ) : ℝ :=
  (∑ i in Finset.range nk, Complex.normSq (x i)) -
    2 * (∑ i in Finset.range nk, q i * x i).re

/-- Source line 415: the equality constraints `a @ x == b` with `b = 0`
(line 404), one row per surviving constraint. -/
def satisfiesConstraints (nk : ℕ) (rows : List (ℕ → ℂ)) (x : ℕ → ℂ) : Prop :=
  ∀ r ∈ rows, (∑ i in Finset.range nk, r i * x i) = 0

/-- Contract of `prob.solve()` at line 416 (modelling the external convex
solver exactly): the returned vector is feasible and minimizes the
objective among all feasible vectors. -/
def IsQPSolution (nk : ℕ) (rows : List (ℕ → ℂ)) (q x : ℕ → ℂ) : Prop :=
  satisfiesConstraints nk rows x ∧
    ∀ y, satisfiesConstraints nk rows y → qpObjective nk q x ≤ qpObjective nk q y

/-- Concrete key list for the optimizer frame analysis: the constant key
and one non-constant key. -/
def c9Keys : List Freq3 :=
  [(0, 0, 0), (1, 0, 0)]

/-- Concrete pre-optimization coefficients: the non-constant key holds the
purely imaginary coefficient `i`. -/
def c9Old : Freq3 → ℂ :=
  fun k => if k = ((1, 0, 0) : Freq3) then Complex.I else 0

/-- The exact minimizer of the code's objective for `c9Keys`/`c9Old` with
no constraints: the conjugate `-i` of the original coefficient. -/
def c9Sol : ℕ → ℂ :=
  fun _ => -Complex.I

theorem searchTriplets_ne_nil (n : ℕ) : searchTriplets n ≠ [] := by
  have h0 : (0 : ℕ) ∈ List.range (2 * (maxF n).toNat + 1) :=
    List.mem_range.mpr (Nat.succ_pos _)
  have hx : (-maxF n + ((0 : ℕ) : ℤ)) ∈ freqRange n := by
    unfold freqRange
    exact List.mem_map_of_mem (fun i : ℕ => -maxF n + (i : ℤ)) h0
  have hmem : ((-maxF n + ((0 : ℕ) : ℤ)), (-maxF n + ((0 : ℕ) : ℤ)),
      (-maxF n + ((0 : ℕ) : ℤ))) ∈ searchTriplets n := by
    simp only [searchTriplets, List.mem_product]
    exact ⟨hx, hx, hx⟩
  exact List.ne_nil_of_mem hmem

theorem computeCoeffsLoop_cons_error (t : Freq3) (rest acc : List Freq3) :
    computeCoeffsLoop (t :: rest) acc = Except.error PyErr.typeError := rfl

theorem computeCoeffs_error (n : ℕ) :
    computeCoeffs n = Except.error PyErr.typeError := by
  unfold computeCoeffs
  cases h : searchTriplets n with
  | nil => exact absurd h (searchTriplets_ne_nil n)
  | cons t rest => exact computeCoeffsLoop_cons_error t rest []

theorem triSymmetryInit_error (n : ℕ) (h : 2 < n) :
    triSymmetryInit n = Except.error PyErr.typeError := by
  unfold triSymmetryInit
  rw [if_neg (by omega)]
  exact computeCoeffs_error n

/-- C2: for every grid size accepted by the constructor's preconditions
(`n > 2`), constructing `TriSymmetry` raises and never yields a usable
object: `_IsInsideIntegerLatticePlanes` accepts exactly two arguments
(first conjunct), the call in `_ComputeCoeffs` passes three and raises
`TypeError` (second conjunct), and hence `__init__` always propagates
`TypeError` (third conjunct). -/
theorem c2_constructor_always_raises (n : ℕ) (fa fb fx fy fz : ℤ)
    (h : 2 < n) :
    pyFilterCall [fa, fb] = Except.ok (isInsideIntegerLatticePlanes fa fb) ∧
    pyFilterCall [fx, fy, fz] = Except.error PyErr.typeError ∧
    triSymmetryInit n = Except.error PyErr.typeError :=
  ⟨rfl, rfl, triSymmetryInit_error n h⟩

/-- Witness for C2 at the smallest accepted grid size `n = 3`. -/
theorem c2_constructor_always_raises_witness :
    2 < 3 ∧
    (pyFilterCall [(5 : ℤ), (7 : ℤ)] =
        Except.ok (isInsideIntegerLatticePlanes 5 7) ∧
      pyFilterCall [(1 : ℤ), (2 : ℤ), (3 : ℤ)] = Except.error PyErr.typeError ∧
      triSymmetryInit 3 = Except.error PyErr.typeError) :=
  ⟨by norm_num, c2_constructor_always_raises 3 5 7 1 2 3 (by norm_num)⟩

/-- C1: the round-trip property is unattainable because the fit itself
fails: on the failing input `np.zeros((3, 3))` (grid size `N = 3`,
`normal_to_face=False`) construction raises `TypeError` inside
`_ComputeCoeffs` before any coefficient is computed, so `EvaluateNaive`
can never be reached, let alone reproduce the input samples. -/
theorem c1_fit_crashes_before_roundtrip :
    triSymmetryInit 3 = Except.error PyErr.typeError :=
  triSymmetryInit_error 3 (by norm_num)

/-- C8: the dual-mode agreement property is unattainable because no fitted
instance exists: on the failing input `np.zeros((4, 4))` (grid size
`N = 4`) construction raises `TypeError`, so neither `EvaluateUnitCube`
nor `EvaluateNaive` can ever be invoked on a fitted instance. -/
theorem c8_fit_crashes_before_dual_mode :
    triSymmetryInit 4 = Except.error PyErr.typeError :=
  triSymmetryInit_error 4 (by norm_num)

/-- C3: the orbits of the fundamental-domain representatives do not
partition the bounded frequency lattice.  With `max_f = 1` (grid sizes
`N = 3` and `N = 4`), the representatives accepted by
`_IsInsideIntegerLatticePlanes` inside the search box are exactly
`(0,0)`, `(1,0)`, `(1,1)`, and the in-range frequency `(0, 1)` belongs to
none of their orbits under the transposed symmetry action, contradicting
the claimed coverage (this also contradicts the source comment calling the
planes a bound on the unique lattice points for D3 symmetry). -/
theorem c3_orbits_do_not_cover :
    (boxPairs 1).filter inFD = [(0, 0), (1, 0), (1, 1)] ∧
    ((0, 1) : Freq2) ∈ boxPairs 1 ∧
    ((0, 1) : Freq2) ∉ orbitList (0, 0) ∧
    ((0, 1) : Freq2) ∉ orbitList (1, 0) ∧
    ((0, 1) : Freq2) ∉ orbitList (1, 1) := by
  decide

theorem orbitList_length (r : Freq2) : (orbitList r).length = 6 := by
  simp [orbitList, kSymmetries]

theorem sumSqMult_pos (r : Freq2) : 0 < sumSqMult r := by
  have h1 : ((orbitList r).dedup.map fun q => orbitCount r q).sum ≤
      ((orbitList r).dedup.map fun q => orbitCount r q ^ 2).sum :=
    List.sum_le_sum fun q _ => Nat.le_self_pow (by decide) _
  have h2 : ((orbitList r).dedup.map fun q => orbitCount r q).sum =
      (orbitList r).length := by
    simpa [orbitCount] using List.sum_map_count_dedup_eq_length (orbitList r)
  have h3 := orbitList_length r
  have h4 : 6 ≤ sumSqMult r := by
    rw [sumSqMult]
    omega
  omega

/-- C4: the stored per-orbit normalizing coefficient equals
`1 / sqrt(sum of squared multiplicities)` and satisfies the orthonormality
identity `sum_of_squared_multiplicities * coefficient ^ 2 = 1`. -/
theorem c4_normalizing_coefficient (r : Freq2) :
    normalizingCoeff r = 1 / Real.sqrt (sumSqMult r) ∧
    (sumSqMult r : ℝ) * normalizingCoeff r ^ 2 = 1 := by
  have hpos : (0 : ℝ) < (sumSqMult r : ℝ) := by
    exact_mod_cast sumSqMult_pos r
  refine ⟨rfl, ?_⟩
  rw [normalizingCoeff, div_pow, one_pow, Real.sq_sqrt hpos.le, mul_one_div,
    div_self (ne_of_gt hpos)]

theorem maxF_pos (n : ℕ) (h : 2 < n) : 1 ≤ maxF n := by
  rw [maxF]
  rcases Nat.mod_two_eq_zero_or_one n with h2 | h2 <;> simp [h2] <;> omega

theorem mem_freqRange (n : ℕ) (x : ℤ) (h : 2 < n) :
    x ∈ freqRange n ↔ -maxF n ≤ x ∧ x ≤ maxF n := by
  have h1 := maxF_pos n h
  simp only [freqRange, List.mem_map, List.mem_range]
  constructor
  · rintro ⟨i, hi, rfl⟩
    omega
  · rintro ⟨hl, hr⟩
    exact ⟨(x + maxF n).toNat, by omega, by omega⟩

/-- C5: for every accepted grid size the Nyquist bound is `n / 2 - 1` for
even `n` and `n / 2` for odd `n`, and the representative search enumerates
exactly the integer triplets with every component in `[-max_f, max_f]`. -/
theorem c5_nyquist_bound (n : ℕ) (t : Freq3) (h : 2 < n) :
    (maxF n = if n % 2 = 0 then ((n / 2 : ℕ) : ℤ) - 1 else ((n / 2 : ℕ) : ℤ)) ∧
    (t ∈ searchTriplets n ↔
      -maxF n ≤ t.1 ∧ t.1 ≤ maxF n ∧ -maxF n ≤ t.2.1 ∧ t.2.1 ≤ maxF n ∧
        -maxF n ≤ t.2.2 ∧ t.2.2 ≤ maxF n) := by
  constructor
  · rw [maxF]
    rcases Nat.mod_two_eq_zero_or_one n with h2 | h2 <;> simp [h2]
  · obtain ⟨a, b, c⟩ := t
    simp only [searchTriplets, List.mem_product, mem_freqRange n _ h]
    constructor
    · rintro ⟨⟨h1, h2⟩, ⟨h3, h4⟩, ⟨h5, h6⟩⟩
      exact ⟨h1, h2, h3, h4, h5, h6⟩
    · rintro ⟨h1, h2, h3, h4, h5, h6⟩
      exact ⟨⟨h1, h2⟩, ⟨h3, h4⟩, ⟨h5, h6⟩⟩

/-- Witness for C5 at grid size `4` and triplet `(1, 0, -1)`. -/
theorem c5_nyquist_bound_witness :
    2 < 4 ∧
    ((maxF 4 = if 4 % 2 = 0 then ((4 / 2 : ℕ) : ℤ) - 1 else ((4 / 2 : ℕ) : ℤ)) ∧
      (((1, 0, -1) : Freq3) ∈ searchTriplets 4 ↔
        -maxF 4 ≤ (1 : ℤ) ∧ (1 : ℤ) ≤ maxF 4 ∧ -maxF 4 ≤ (0 : ℤ) ∧
          (0 : ℤ) ≤ maxF 4 ∧ -maxF 4 ≤ (-1 : ℤ) ∧ (-1 : ℤ) ≤ maxF 4)) :=
  ⟨by norm_num, c5_nyquist_bound 4 (1, 0, -1) (by norm_num)⟩

theorem wrapIdx_eq_emod (n : ℕ) (v : ℤ) (h1 : -(n : ℤ) < v) (h2 : v < (n : ℤ)) :
    wrapIdx n v = v % (n : ℤ) := by
  rw [wrapIdx]
  split
  · rename_i hv
    exact (Int.emod_eq_of_lt hv h2).symm
  · rename_i hv
    have hn : (0 : ℤ) < (n : ℤ) := by omega
    have hlt : 0 ≤ v + (n : ℤ) := by omega
    have hlt2 : v + (n : ℤ) < (n : ℤ) := by omega
    have : (v + (n : ℤ) * 1) % (n : ℤ) = v % (n : ℤ) :=
      Int.add_mul_emod_self_left v (n : ℤ) 1
    rw [mul_one] at this
    rw [← this, Int.emod_eq_of_lt hlt hlt2]

/-- C6: in the real-input branch, the raw spectral value at a triplet with
negative last coordinate is the complex conjugate of the stored
half-spectrum value at the negated triplet, the negated first and second
coordinates being wrapped modulo `n` into the array index range. -/
theorem c6_conjugate_symmetry (n : ℕ) (rfft cfft : ℤ → ℤ → ℤ → ℂ)
    (fx fy fz : ℤ) (hz : fz < 0) (hx : fx.natAbs < n) (hy : fy.natAbs < n) :
    getCoeff true n rfft cfft fx fy fz =
      starRingEnd ℂ (rfft ((-fx) % (n : ℤ)) ((-fy) % (n : ℤ)) (-fz)) := by
  rw [getCoeff, if_pos rfl, if_pos hz,
    wrapIdx_eq_emod n (-fx) (by omega) (by omega),
    wrapIdx_eq_emod n (-fy) (by omega) (by omega)]

/-- Witness for C6 at `n = 3`, a concrete spectrum, and `(fx, fy, fz) =
(1, 0, -1)`. -/
theorem c6_conjugate_symmetry_witness :
    (-1 : ℤ) < 0 ∧ (1 : ℤ).natAbs < 3 ∧ (0 : ℤ).natAbs < 3 ∧
    getCoeff true 3 (fun a b c => ((a + 2 * b + 3 * c : ℤ) : ℂ))
        (fun _ _ _ => 0) 1 0 (-1) =
      starRingEnd ℂ
        ((fun a b c => ((a + 2 * b + 3 * c : ℤ) : ℂ))
          ((-(1 : ℤ)) % (3 : ℤ)) ((-(0 : ℤ)) % (3 : ℤ)) (-(-1 : ℤ))) :=
  ⟨by norm_num, by norm_num, by norm_num,
    c6_conjugate_symmetry 3 (fun a b c => ((a + 2 * b + 3 * c : ℤ) : ℂ))
      (fun _ _ _ => 0) 1 0 (-1) (by norm_num) (by norm_num) (by norm_num)⟩

/-- C7 counterexample: at native size `n = 4` and requested resolution
`res = 3`, the evaluation size is `6`, which is not the smallest multiple
of `n` exceeding the request (that would be `4`) and is not a multiple of
`n` at all. -/
theorem c7_counterexample_not_multiple_of_n :
    resActual 4 3 = 6 ∧ resActual 4 3 ≠ 4 ∧ ¬ (4 ∣ resActual 4 3) := by
  decide

/-- C7 (amended): for a requested resolution `res` below the native size
`n`, the code evaluates at the smallest multiple of `res` that is at least
`n` (not at a multiple of `n`), and decimating that grid by the stride
`res_actual / res` returns exactly `res` samples per axis; for `res ≥ n`
it evaluates directly at `res`. -/
theorem c7_resolution_logic (n res m : ℕ) (hres : 0 < res) :
    (res < n →
      res ∣ resActual n res ∧
      n ≤ resActual n res ∧
      (res ∣ m → n ≤ m → resActual n res ≤ m) ∧
      strideSkip n res * res = resActual n res ∧
      stridedLength (resActual n res) (strideSkip n res) = res) ∧
    (n ≤ res → resActual n res = res) := by
  constructor
  · intro hlt
    have hq : resActual n res = ((n + res - 1) / res) * res := by
      rw [resActual, if_pos hlt]
    have hceil : (n + res - 1) / res = n ⌈/⌉ res :=
      (Nat.ceilDiv_eq_add_pred_div n res).symm
    have hle : n ≤ resActual n res := by
      rw [hq, hceil, mul_comm]
      simpa [smul_eq_mul] using (le_smul_ceilDiv hres : n ≤ res • (n ⌈/⌉ res))
    have hqpos : 0 < (n + res - 1) / res :=
      Nat.div_pos (by omega) hres
    refine ⟨⟨(n + res - 1) / res, by rw [hq, mul_comm]⟩, hle, ?_, ?_, ?_⟩
    · intro hdvd hnm
      obtain ⟨k, hk⟩ := hdvd
      have hqk : (n + res - 1) / res ≤ k := by
        rw [hceil]
        exact (ceilDiv_le_iff_le_mul hres).mpr (by rw [← hk]; exact hnm)
      calc resActual n res = ((n + res - 1) / res) * res := hq
        _ ≤ k * res := Nat.mul_le_mul_right res hqk
        _ = m := by rw [hk, mul_comm]
    · rw [strideSkip, hq, Nat.mul_div_cancel _ hres]
    · rw [stridedLength, strideSkip, hq, Nat.mul_div_cancel _ hres]
      have hrw : ((n + res - 1) / res) * res + (n + res - 1) / res - 1 =
          ((n + res - 1) / res) * res + ((n + res - 1) / res - 1) := by
        omega
      rw [hrw, Nat.mul_add_div hqpos,
        Nat.div_eq_of_lt (by omega), Nat.add_zero]
  · intro hge
    rw [resActual, if_neg (by omega)]

/-- Witness for C7 at `n = 4`, `res = 3`, and comparison multiple `m = 8`. -/
theorem c7_resolution_logic_witness :
    0 < 3 ∧
    ((3 < 4 →
      3 ∣ resActual 4 3 ∧
      4 ≤ resActual 4 3 ∧
      (3 ∣ 8 → 4 ≤ 8 → resActual 4 3 ≤ 8) ∧
      strideSkip 4 3 * 3 = resActual 4 3 ∧
      stridedLength (resActual 4 3) (strideSkip 4 3) = 3) ∧
    (4 ≤ 3 → resActual 4 3 = 3)) :=
  ⟨by norm_num, c7_resolution_logic 4 3 8 (by norm_num)⟩

theorem keyToIndexList_c9 : keyToIndexList c9Keys = [(1, 0, 0)] := by
  decide

/-- C9 counterexample: with keys `{(0,0,0), (1,0,0)}`, pre-optimization
coefficient `i` on the non-constant orbit, and an empty constraint system
(so the orbit `(1,0,0)` is referenced by no constraint), the exact
minimizer of the code's objective is the constant `-i` vector — it
satisfies the solver contract — and the update step replaces the
unreferenced orbit's coefficient with `-i ≠ i`, so that orbit is not left
unchanged. -/
theorem c9_counterexample_unreferenced_orbit_changes :
    IsQPSolution 1 [] (qVec c9Keys c9Old) c9Sol ∧
    updateCoeffs c9Keys c9Old c9Sol (1, 0, 0) ≠ c9Old (1, 0, 0) := by
  have hq : qVec c9Keys c9Old 0 = Complex.I := by
    rw [qVec, keyToIndexList_c9]
    simp [c9Old]
  refine ⟨⟨?_, ?_⟩, ?_⟩
  · intro r hr
    simp at hr
  · intro y _
    rw [qpObjective, qpObjective]
    simp only [Finset.sum_range_one, hq, c9Sol]
    have h1 : Complex.normSq (-Complex.I) = 1 := by
      simp [Complex.normSq_apply]
    have h2 : (Complex.I * -Complex.I).re = 1 := by
      simp [Complex.mul_re]
    rw [h1, h2]
    have h3 : (Complex.I * y 0).re = -(y 0).im := by
      simp [Complex.mul_re]
    rw [h3, Complex.normSq_apply]
    nlinarith [sq_nonneg ((y 0).im + 1), sq_nonneg ((y 0).re)]
  · rw [updateCoeffs, keyToIndexList_c9]
    simp only [List.mem_singleton, if_pos rfl, c9Sol, c9Old, if_pos rfl]
    intro heq
    have := congrArg Complex.im heq
    norm_num at this

/-- C9 (amended): the zero-frequency key is excluded from the optimization
variables and keeps its coefficient, and any key outside the variable list
keeps its coefficient; but every non-zero key of the frequency table is an
optimization variable — whether or not any constraint references it — and
its coefficient is replaced by the solver's value at its index. -/
theorem c9_optimizer_frame (keys : List Freq3) (old : Freq3 → ℂ)
    (sol : ℕ → ℂ) (k k' : Freq3) (hk : k ∈ keys) (hknz : k ≠ (0, 0, 0))
    (hk' : k' ∉ keyToIndexList keys) :
    ((0, 0, 0) : Freq3) ∉ keyToIndexList keys ∧
    updateCoeffs keys old sol (0, 0, 0) = old (0, 0, 0) ∧
    updateCoeffs keys old sol k = sol (List.indexOf k (keyToIndexList keys)) ∧
    updateCoeffs keys old sol k' = old k' := by
  have h0 : ((0, 0, 0) : Freq3) ∉ keyToIndexList keys := by
    rw [keyToIndexList]
    intro hmem
    have := (List.mem_filter.mp hmem).2
    simp at this
  have hkmem : k ∈ keyToIndexList keys := by
    rw [keyToIndexList]
    exact List.mem_filter.mpr ⟨hk, by simpa using hknz⟩
  exact ⟨h0, by rw [updateCoeffs, if_neg h0], by rw [updateCoeffs, if_pos hkmem],
    by rw [updateCoeffs, if_neg hk']⟩

/-- Witness for C9's amended statement on the concrete key list `c9Keys`. -/
theorem c9_optimizer_frame_witness :
    ((1, 0, 0) : Freq3) ∈ c9Keys ∧ ((1, 0, 0) : Freq3) ≠ (0, 0, 0) ∧
    ((2, 0, 0) : Freq3) ∉ keyToIndexList c9Keys ∧
    (((0, 0, 0) : Freq3) ∉ keyToIndexList c9Keys ∧
      updateCoeffs c9Keys (fun _ => 0) (fun _ => 1) (0, 0, 0) = (fun _ => (0 : ℂ)) (0, 0, 0) ∧
      updateCoeffs c9Keys (fun _ => 0) (fun _ => 1) (1, 0, 0) =
        (fun _ => (1 : ℂ)) (List.indexOf ((1, 0, 0) : Freq3) (keyToIndexList c9Keys)) ∧
      updateCoeffs c9Keys (fun _ => 0) (fun _ => 1) (2, 0, 0) = (fun _ => (0 : ℂ)) (2, 0, 0)) :=
  ⟨by decide, by decide, by decide,
    c9_optimizer_frame c9Keys (fun _ => 0) (fun _ => 1) (1, 0, 0) (2, 0, 0)
      (by decide) (by decide) (by decide)⟩

theorem freqRange_nodup (n : ℕ) : (freqRange n).Nodup := by
  refine List.Nodup.map ?_ (List.nodup_range _)
  intro a b hab
  dsimp only at hab
  omega

theorem searchTriplets_nodup (n : ℕ) : (searchTriplets n).Nodup :=
  (freqRange_nodup n).product ((freqRange_nodup n).product (freqRange_nodup n))

theorem repLoop_ok (φ : Freq3 → Bool) :
    ∀ (L acc : List Freq3), L.Nodup → (∀ t ∈ L, t ∉ acc) →
      ∃ l, repLoop φ L acc = Except.ok l := by
  intro L
  induction L with
  | nil => exact fun acc _ _ => ⟨acc, rfl⟩
  | cons t rest ih =>
    intro acc hnd hacc
    have hnd' := List.nodup_cons.mp hnd
    rw [repLoop]
    by_cases hφ : φ t = false
    · rw [if_pos hφ]
      exact ih acc hnd'.2 fun t' ht' => hacc t' (List.mem_cons_of_mem t ht')
    · rw [if_neg hφ, if_neg (hacc t (List.mem_cons_self t rest))]
      refine ih (acc ++ [t]) hnd'.2 fun t' ht' hmem => ?_
      rcases List.mem_append.mp hmem with h | h
      · exact hacc t' (List.mem_cons_of_mem t ht') h
      · rw [List.mem_singleton.mp h] at ht'
        exact hnd'.1 ht'

/-- C10: seeing the same representative key twice raises the duplicate-key
assertion (first conjunct, shown on a two-element enumeration repeating an
accepted key), but the actual enumeration ranges over pairwise-distinct
integer triplets, so for every grid size and every fundamental-domain
filter the duplicate branch is unreachable and the enumeration never
raises the duplicate-key error. -/
theorem c10_duplicate_check_unreachable (n : ℕ) (φ : Freq3 → Bool)
    (t : Freq3) (hφ : φ t = true) :
    repLoop φ [t, t] [] = Except.error PyErr.assertionError ∧
    enumerateReps n φ ≠ Except.error PyErr.assertionError := by
  constructor
  · rw [repLoop, if_neg (by simp [hφ]), if_neg (by simp)]
    rw [repLoop, if_neg (by simp [hφ]), if_pos (by simp)]
  · obtain ⟨l, hl⟩ :=
      repLoop_ok φ (searchTriplets n) [] (searchTriplets_nodup n) (by simp)
    rw [enumerateReps, hl]
    exact fun h => Except.noConfusion h

/-- Witness for C10 with grid size `3`, the always-true filter, and the
repeated key `(0, 0, 0)`. -/
theorem c10_duplicate_check_unreachable_witness :
    (fun _ : Freq3 => true) ((0, 0, 0) : Freq3) = true ∧
    (repLoop (fun _ : Freq3 => true) [(0, 0, 0), (0, 0, 0)] [] =
        Except.error PyErr.assertionError ∧
      enumerateReps 3 (fun _ : Freq3 => true) ≠
        Except.error PyErr.assertionError) :=
  ⟨rfl, c10_duplicate_check_unreachable 3 (fun _ => true) (0, 0, 0) rfl⟩
